import Mathlib

/-!
Verification of the coordination layer of the Gemma multi-SUT automation
repository: the inference request broker (`omniparser_queue_service.py`)
and the per-SUT session controller (`gui_app_multi_sut.py`).

The Python code is shallowly embedded: the broker's queue and stats become
an explicit state record, the single background worker becomes a function
from the dequeued request list to an event trace, and the session
controller's batch loop becomes a recursive function over an environment
that supplies the automation-engine outcomes and the cancellation-flag
readings at each cooperative checkpoint.
-/

namespace Gemma

/-! ## Broker: `omniparser_queue_service.py` -/

/-- Constant `MAX_QUEUE_SIZE = 100` from the module configuration block. -/
def MAX_QUEUE_SIZE : Nat := 100

/-- An HTTP-level failure as raised by the service (`HTTPException`):
a status code plus a human-readable detail string. -/
structure HTTPError where
  statusCode : Nat
  detail : String
deriving DecidableEq, Repr

/-- A queued request (`QueuedRequest` dataclass): the generated short id and
the opaque payload.  The enqueue timestamp and the `asyncio.Future` are
represented implicitly: fulfilment of the future is an event in the worker
trace below.  The payload type is a parameter `π`. -/
structure QueuedRequest (π : Type) where
  request_id : String
  payload : π
deriving DecidableEq, Repr

/-- Broker state: the FIFO queue contents plus the `stats` counters of
`OmniparserQueueManager`. -/
structure BrokerState (π : Type) where
  queue : List (QueuedRequest π)
  total_requests : Nat
  successful_requests : Nat
  failed_requests : Nat
deriving DecidableEq, Repr

/-- The freshly constructed manager: empty queue, all counters zero. -/
def BrokerState.empty {π : Type} : BrokerState π :=
  { queue := []
    total_requests := 0
    successful_requests := 0
    failed_requests := 0 }

/-- Method `OmniparserQueueManager.enqueue_request`: if the current queue size is
at or above `MAX_QUEUE_SIZE`, raise 503 "Queue is full" without touching
the state; otherwise append the new `QueuedRequest` to the FIFO and bump
`total_requests`.  The generated uuid fragment is passed in as
`request_id`. -/
def enqueue_request {π : Type} (st : BrokerState π) (request_id : String)
    (payload : π) : BrokerState π × Except HTTPError Unit :=
  if MAX_QUEUE_SIZE ≤ st.queue.length then
    (st, .error ⟨503, "Queue is full, please retry later"⟩)
  else
    ({ st with
        queue := st.queue ++ [⟨request_id, payload⟩]
        total_requests := st.total_requests + 1 },
     .ok ())

/-- What the Omniparser backend does with one forwarded request: an HTTP
response (status, body text, parsed json of type `ρ`), a timeout of the
outbound call, or a connection-level `RequestException`. -/
inductive BackendResponse (ρ : Type) where
  | http (status : Nat) (text : String) (json : ρ)
  | timeout
  | connError (msg : String)
deriving DecidableEq, Repr

/-- Method `OmniparserQueueManager._forward_to_omniparser`: status 200 returns the
parsed body; any other status raises that status with an
"Omniparser server error" detail; `requests.Timeout` raises 504;
`requests.RequestException` raises 502. -/
def forward_to_omniparser {ρ : Type} (resp : BackendResponse ρ) :
    Except HTTPError ρ :=
  match resp with
  | .http status text json =>
      if status = 200 then .ok json
      else .error ⟨status, "Omniparser server error: " ++ text⟩
  | .timeout => .error ⟨504, "Omniparser request timed out"⟩
  | .connError msg =>
      .error ⟨502, "Failed to connect to Omniparser: " ++ msg⟩

/-- Observable events of the broker worker `OmniparserQueueManager._worker`:
entering the forward call to the backend, returning from it, and fulfilling
a request's completion future with either the result or the failure. -/
inductive Ev (ρ : Type) where
  | forwardStart (request_id : String)
  | forwardEnd (request_id : String)
  | fulfilled (request_id : String) (outcome : Except HTTPError ρ)
deriving Repr

instance {ρ : Type} [DecidableEq ρ] : DecidableEq (Except HTTPError ρ) :=
  fun a b =>
    match a, b with
    | .ok x, .ok y =>
        if h : x = y then .isTrue (by rw [h]) else .isFalse (by simp [h])
    | .error e, .error f =>
        if h : e = f then .isTrue (by rw [h]) else .isFalse (by simp [h])
    | .ok _, .error _ => .isFalse (by simp)
    | .error _, .ok _ => .isFalse (by simp)

instance {ρ : Type} [DecidableEq ρ] : DecidableEq (Ev ρ) := fun a b =>
  match a, b with
  | .forwardStart i, .forwardStart j =>
      if h : i = j then .isTrue (by rw [h]) else .isFalse (by simp [h])
  | .forwardEnd i, .forwardEnd j =>
      if h : i = j then .isTrue (by rw [h]) else .isFalse (by simp [h])
  | .fulfilled i o, .fulfilled j p =>
      if h : i = j ∧ o = p then .isTrue (by rw [h.1, h.2])
      else .isFalse (by simp; intro hij; exact fun hop => h ⟨hij, hop⟩)
  | .forwardStart _, .forwardEnd _ => .isFalse (by simp)
  | .forwardStart _, .fulfilled _ _ => .isFalse (by simp)
  | .forwardEnd _, .forwardStart _ => .isFalse (by simp)
  | .forwardEnd _, .fulfilled _ _ => .isFalse (by simp)
  | .fulfilled _ _, .forwardStart _ => .isFalse (by simp)
  | .fulfilled _ _, .forwardEnd _ => .isFalse (by simp)

/-- The worker loop `_worker`, as the event trace it produces while draining
a queue whose eventual FIFO contents are `reqs`: it dequeues one request,
awaits `_forward_to_omniparser` completely, fulfils that request's future
with the result or the exception, and only then dequeues the next.
`backend` abstracts the Omniparser server's behaviour per request. -/
def worker_trace {π ρ : Type} (backend : QueuedRequest π → BackendResponse ρ) :
    List (QueuedRequest π) → List (Ev ρ)
  | [] => []
  | r :: rs =>
      .forwardStart r.request_id ::
      .forwardEnd r.request_id ::
      .fulfilled r.request_id (forward_to_omniparser (backend r)) ::
      worker_trace backend rs

/-- Is this event the entry into a forward call? -/
def Ev.isForwardStart {ρ : Type} : Ev ρ → Bool
  | .forwardStart _ => true
  | _ => false

/-- Is this event the return from a forward call? -/
def Ev.isForwardEnd {ρ : Type} : Ev ρ → Bool
  | .forwardEnd _ => true
  | _ => false

/-- The ids of fulfilled requests, in trace order: the order in which
suspended callers of `enqueue_request` resume. -/
def fulfilledIds {ρ : Type} : List (Ev ρ) → List String
  | [] => []
  | .fulfilled id _ :: evs => id :: fulfilledIds evs
  | _ :: evs => fulfilledIds evs

/-- How many fulfilment events the trace contains for the request `id`. -/
def fulfilCount {ρ : Type} (id : String) (evs : List (Ev ρ)) : Nat :=
  evs.countP (fun e => match e with
    | .fulfilled i _ => i == id
    | _ => false)

/-- Run a sequence of enqueue calls (id, payload pairs) in submission
order, threading the broker state. -/
def enqueueAll {π : Type} (st : BrokerState π) :
    List (String × π) → BrokerState π
  | [] => st
  | (id, p) :: rest => enqueueAll (enqueue_request st id p).1 rest

/-- The requests of a submission sequence that `enqueue_request` accepts
(does not reject as queue-full), in submission order. -/
def acceptedRequests {π : Type} (st : BrokerState π) :
    List (String × π) → List (QueuedRequest π)
  | [] => []
  | (id, p) :: rest =>
      if MAX_QUEUE_SIZE ≤ st.queue.length then
        acceptedRequests st rest
      else
        ⟨id, p⟩ :: acceptedRequests (enqueue_request st id p).1 rest

/-! ## Session controller: `gui_app_multi_sut.py` -/

/-- The status strings of a `SUTController` (`"Not Connected"` appears only
in the display colour map). -/
inductive Status where
  | Idle | Running | Completed | Failed | Stopped | Error | NotConnected
deriving DecidableEq, Repr

/-- A Python-level runtime exception escaping a controller method: in this
code base, the `AttributeError` raised by calling a method on
`self.logger` while it is still `None`. -/
inductive PyError where
  | attributeError (msg : String)
deriving DecidableEq, Repr

/-- The fields of `SUTController` visible to the claims: the persisted
configuration fields, the run policy, and the transient lifecycle state
(`thread`/`stop_event` modelled as booleans).  `logger_bound` models
whether `self.logger` is bound (it is `None` from `__init__` until the
worker first runs `setup_logger`, which happens only inside
`_run_automation` after a successful start). -/
structure SUTController where
  name : String
  ip : String
  port : Nat
  config_path : String
  game_path : String
  run_count : Nat
  run_delay : Nat
  thread_alive : Bool
  stop_event : Bool
  logger_bound : Bool
  status : Status
  completed_steps : Nat
  total_steps : Nat
  current_step : String
  current_run : Nat
  total_runs : Nat
deriving DecidableEq, Repr

/-- Constructor `SUTController.__init__`: defaults `run_count = 3`, `run_delay = 30`,
no thread, `self.logger = None`, status `Idle`, zeroed progress,
`total_runs = 1`. -/
def SUTController.init (name ip : String) (port : Nat)
    (config_path game_path : String) : SUTController :=
  { name := name
    ip := ip
    port := port
    config_path := config_path
    game_path := game_path
    run_count := 3
    run_delay := 30
    thread_alive := false
    stop_event := false
    logger_bound := false
    status := .Idle
    completed_steps := 0
    total_steps := 0
    current_step := ""
    current_run := 0
    total_runs := 1 }

/-- Method `SUTController.start_automation`: if the worker thread is alive,
call `self.logger.warning(...)` — an `AttributeError` if the logger is
still `None` — and return `False` with the status left as it was; if no
config path is bound, call `self.logger.error(...)` — again an
`AttributeError` on an unbound logger, raised BEFORE the status
assignment — then set status `Error` and return `False`; otherwise (no
logger call on this path) clear the stop event, set status `Running`,
reset `completed_steps` and `current_run`, set `total_runs` to the
controller's own `run_count`, spawn the worker thread and return
`True`. -/
def start_automation (c : SUTController) :
    Except PyError (SUTController × Bool) :=
  if c.thread_alive then
    if c.logger_bound then .ok (c, false)
    else .error (.attributeError "NoneType object has no attribute warning")
  else if c.config_path = "" then
    if c.logger_bound then .ok ({ c with status := .Error }, false)
    else .error (.attributeError "NoneType object has no attribute error")
  else
    .ok ({ c with
            stop_event := false
            status := .Running
            completed_steps := 0
            current_run := 0
            total_runs := c.run_count
            thread_alive := true },
         true)

/-- Method `SUTController.stop_automation`: if the worker thread is alive,
call `self.logger.info(...)` — an `AttributeError` if the logger is still
`None` — then set the stop event and status `Stopped`, returning `True`;
otherwise return `False` unchanged. -/
def stop_automation (c : SUTController) :
    Except PyError (SUTController × Bool) :=
  if c.thread_alive then
    if c.logger_bound then
      .ok ({ c with stop_event := true, status := .Stopped }, true)
    else .error (.attributeError "NoneType object has no attribute info")
  else
    .ok (c, false)

/-- The plain record produced by `SUTController.to_dict`: exactly the keys
`name, ip, port, config_path, game_path, run_count, run_delay`. -/
structure SUTRecord where
  name : String
  ip : String
  port : Nat
  config_path : String
  game_path : String
  run_count : Nat
  run_delay : Nat
deriving DecidableEq, Repr

/-- Method `SUTController.to_dict`. -/
def SUTController.to_dict (c : SUTController) : SUTRecord :=
  { name := c.name
    ip := c.ip
    port := c.port
    config_path := c.config_path
    game_path := c.game_path
    run_count := c.run_count
    run_delay := c.run_delay }

/-- Method `SUTController.from_dict`: construct a fresh controller from the saved
identity/endpoint/config fields and then restore the run settings. -/
def SUTController.from_dict (d : SUTRecord) : SUTController :=
  { (SUTController.init d.name d.ip d.port d.config_path d.game_path) with
    run_count := d.run_count, run_delay := d.run_delay }

/-! ### The batch worker `SUTController._run_automation`

The worker body is embedded as a recursive function over an environment
that supplies, per run number, the automation engine's effect on the
session status and the value of the cancellation flag `stop_event` at each
cooperative checkpoint (before a run, after a run, and at each one-second
tick of the inter-run delay). -/

/-- The status a single dispatched run (`_run_simple_automation` /
`_run_state_machine_automation`) leaves in `self.status`: `Completed` when
the engine's `run()` returns success, `Stopped` when the stop event was
observed during the run, `Failed` otherwise (engine failure, exception, or
unreachable endpoint). -/
inductive RunOutcome where
  | success | stoppedDuring | failure
deriving DecidableEq, Repr

/-- The status assigned by a run with the given outcome. -/
def runStatus : RunOutcome → Status
  | .success => .Completed
  | .stoppedDuring => .Stopped
  | .failure => .Failed

/-- Environment of one batch: per run number, the outcome of the dispatched
run and the readings of `stop_event.is_set()` at the loop's checkpoints.
`stopDelay n t` is the reading at tick `t` of the delay following run
`n`. -/
structure BatchEnv where
  stopBefore : Nat → Bool
  runOut : Nat → RunOutcome
  stopAfter : Nat → Bool
  stopDelay : Nat → Nat → Bool

/-- Observable events of the batch worker: a run executing (its run
directory is created and the engine dispatched), a status assignment, an
assignment to `current_run`, and one second of inter-run delay being slept
(tick `t` of the delay after run `n`). -/
inductive BEvent where
  | runStart (n : Nat)
  | setStatus (s : Status)
  | setCurrentRun (n : Nat)
  | delayTick (n : Nat) (t : Nat)
deriving DecidableEq, Repr

/-- The inter-run delay loop (`for _ in range(run_delay): if
self.stop_event.is_set(): self.status = "Stopped"; return; time.sleep(1)`),
started at tick `t` with `r` seconds remaining: returns the events emitted
and whether the loop exited because the stop event was observed. -/
def delayLoop (env : BatchEnv) (n : Nat) : Nat → Nat → List BEvent × Bool
  | _, 0 => ([], false)
  | t, r + 1 =>
      if env.stopDelay n t then ([.setStatus .Stopped], true)
      else
        let p := delayLoop env n (t + 1) r
        (.delayTick n t :: p.1, p.2)

/-- One batch of `_run_automation`, from run `run_num` with `remaining`
runs left to attempt (`remaining` is `run_count - run_num + 1` at every
call reached from `runBatch`), threading the current `self.status`:

* at the loop head, if the stop event is set, set `Stopped` and return;
* otherwise set `current_run`, dispatch the run (which assigns its
  outcome's status), then: if the stop event is set, set `Stopped` and
  return; if the status is now `Failed`, return; otherwise if this is not
  the last run and the delay is positive, run the cancellation-aware delay
  loop (returning if it observed the stop event) and continue with the
  next run;
* when the loop finishes, set `Completed` unless the status is `Failed`
  or `Stopped`. -/
def runBatchAux (env : BatchEnv) (run_count run_delay : Nat) :
    Status → Nat → Nat → List BEvent
  | status, _, 0 =>
      if status ≠ .Failed ∧ status ≠ .Stopped then [.setStatus .Completed]
      else []
  | _, run_num, remaining + 1 =>
      if env.stopBefore run_num then [.setStatus .Stopped]
      else
        let st1 := runStatus (env.runOut run_num)
        let evs1 : List BEvent :=
          [.setCurrentRun run_num, .runStart run_num, .setStatus st1]
        if env.stopAfter run_num then evs1 ++ [.setStatus .Stopped]
        else if st1 = .Failed then evs1
        else if run_num < run_count ∧ 0 < run_delay then
          let p := delayLoop env run_num 0 run_delay
          if p.2 then evs1 ++ p.1
          else
            evs1 ++ p.1 ++
              runBatchAux env run_count run_delay st1 (run_num + 1) remaining
        else
          evs1 ++ runBatchAux env run_count run_delay st1 (run_num + 1) remaining

/-- The event trace of one whole batch: the worker enters with status
`Running` (set by `start_automation`) at run 1. -/
def runBatch (env : BatchEnv) (run_count run_delay : Nat) : List BEvent :=
  runBatchAux env run_count run_delay .Running 1 run_count

/-- The session status after replaying the trace's status assignments over
the initial status `s0`. -/
def finalStatus (s0 : Status) (evs : List BEvent) : Status :=
  evs.foldl (fun s e => match e with | .setStatus s' => s' | _ => s) s0

/-- No run is dispatched anywhere in the event list. -/
def noRunStart (evs : List BEvent) : Bool :=
  evs.all fun e => match e with
    | .runStart _ => false
    | _ => true

/-- The event list contains an assignment of a batch-terminal status
(`Failed` or `Stopped`). -/
def hasTerminal (evs : List BEvent) : Bool :=
  evs.any fun e => match e with
    | .setStatus .Failed => true
    | .setStatus .Stopped => true
    | _ => false

/-- Every assignment of `Failed` or `Stopped` in the event list is followed
by no further dispatched run. -/
def stopsAfterTerminal : List BEvent → Bool
  | [] => true
  | .setStatus .Failed :: evs => noRunStart evs && stopsAfterTerminal evs
  | .setStatus .Stopped :: evs => noRunStart evs && stopsAfterTerminal evs
  | _ :: evs => stopsAfterTerminal evs

/-- The stronger property the spec claims: every assignment of any
terminal status — `Completed` included — is followed by no further
dispatched run and by no further status assignment. -/
def stopsAfterAnyTerminal : List BEvent → Bool
  | [] => true
  | .setStatus s :: evs =>
      if s = .Completed ∨ s = .Failed ∨ s = .Stopped ∨ s = .Error then
        (noRunStart evs &&
          evs.all (fun e => match e with | .setStatus _ => false | _ => true))
          && stopsAfterTerminal evs
      else stopsAfterAnyTerminal evs
  | _ :: evs => stopsAfterAnyTerminal evs

/-- Number of delay ticks slept in the delay following run `n`. -/
def tickCount (n : Nat) (evs : List BEvent) : Nat :=
  evs.countP fun e => match e with
    | .delayTick j _ => j == n
    | _ => false

/-! ### The shared logging channel

`setup_logger` mutates the handler list of the process-wide root logger:
it removes every `QueueHandler` (whichever session attached it) and then
appends this session's freshly created `QueueHandler`; the `finally`
block of `_run_automation` removes exactly the session's own handler
object.  A handler is identified by the owning session's name plus a
unique object id distinguishing distinct `QueueHandler` instances. -/

/-- A handler attached to the root logger: a session's `QueueHandler`
capture sink, or any other kind of handler (file/console). -/
inductive RootHandler where
  | queueHandler (owner : String) (uid : Nat)
  | other (uid : Nat)
deriving DecidableEq, Repr

/-- Test `isinstance(handler, QueueHandler)`. -/
def RootHandler.isQueue : RootHandler → Bool
  | .queueHandler _ _ => true
  | .other _ => false

/-- The effect of `setup_logger` on the root logger's handler list: remove
ALL `QueueHandler`s (the loop over `root_logger.handlers` with
`isinstance(handler, QueueHandler)`), then `addHandler` the session's new
sink. -/
def setup_logger_root (owner : String) (uid : Nat)
    (root : List RootHandler) : List RootHandler :=
  (root.filter fun h => ! h.isQueue) ++ [.queueHandler owner uid]

/-- The `finally` cleanup of `_run_automation`:
`root_logger.removeHandler(self.queue_handler)` removes exactly the
session's own sink object. -/
def remove_own_sink (owner : String) (uid : Nat)
    (root : List RootHandler) : List RootHandler :=
  root.erase (.queueHandler owner uid)

/-! ### Concrete instances used to exhibit counterexamples and witnesses -/

/-- A batch environment in which every run succeeds and the stop event is
never set. -/
def envAllSuccess : BatchEnv :=
  { stopBefore := fun _ => false
    runOut := fun _ => .success
    stopAfter := fun _ => false
    stopDelay := fun _ _ => false }

/-- A batch environment in which run 2 fails and every other run succeeds;
the stop event is never set. -/
def envFailAt2 : BatchEnv :=
  { stopBefore := fun _ => false
    runOut := fun n => if n = 2 then .failure else .success
    stopAfter := fun _ => false
    stopDelay := fun _ _ => false }

/-- A batch environment in which every run succeeds and the stop event is
first observed at tick 1 of the delay following run 1. -/
def envStopInDelay : BatchEnv :=
  { stopBefore := fun _ => false
    runOut := fun _ => .success
    stopAfter := fun _ => false
    stopDelay := fun n t => decide (n = 1 ∧ 1 ≤ t) }

/-- A controller whose worker thread is currently alive and whose worker
has already run `setup_logger` (used to exhibit the behaviour of
`start_automation` on an active session). -/
def cActive : SUTController :=
  { (SUTController.init "SUT1" "10.0.0.5" 8080 "configs/game.yaml" "") with
    thread_alive := true
    logger_bound := true }

/-- A never-started controller with no bound configuration path: its
logger is still `None`. -/
def cNoConfig : SUTController :=
  SUTController.init "SUT2" "10.0.0.6" 8080 "" ""

/-- A previously started controller (so its logger is bound) whose
configuration path has since been cleared. -/
def cStale : SUTController :=
  { (SUTController.init "SUT4" "10.0.0.8" 8080 "" "") with
    logger_bound := true
    status := .Completed }

/-- An idle controller with a bound configuration. -/
def cReady : SUTController :=
  { (SUTController.init "SUT3" "10.0.0.7" 8080 "configs/game.yaml" "") with
    run_count := 5
    run_delay := 10 }

/-- A broker state whose queue is at capacity. -/
def fullBroker : BrokerState Nat :=
  { queue := List.replicate MAX_QUEUE_SIZE ⟨"req", 0⟩
    total_requests := 150
    successful_requests := 40
    failed_requests := 10 }

/-- A two-request queue with distinct ids. -/
def twoReqs : List (QueuedRequest Nat) := [⟨"aa", 0⟩, ⟨"bb", 1⟩]

/-- A backend stub that answers 200 with the request's own payload. -/
def echoBackend : QueuedRequest Nat → BackendResponse Nat :=
  fun r => .http 200 "" r.payload

/-- A shared logging channel carrying session B's capture sink and one
non-queue handler. -/
def rootTwo : List RootHandler :=
  [RootHandler.queueHandler "B" 0, RootHandler.other 7]

/-- The events of one cleanly completed non-final run `j`: set
`current_run`, dispatch the run (status `Completed`), then sleep the full
inter-run delay. -/
def successBlock (rd j : Nat) : List BEvent :=
  [.setCurrentRun j, .runStart j, .setStatus .Completed] ++
    (List.range' 0 rd).map fun u => .delayTick j u

/-- The concatenated events of clean successful runs
`run_num, …, run_num + i - 1`. -/
def successBlocks (rd run_num i : Nat) : List BEvent :=
  ((List.range' run_num i).map (successBlock rd)).flatten

end Gemma

/-! ## Theorems -/

namespace Gemma

lemma worker_trace_countP_bound {π ρ : Type}
    (backend : QueuedRequest π → BackendResponse ρ)
    (reqs : List (QueuedRequest π)) (n : Nat) :
    ((worker_trace backend reqs).take n).countP Ev.isForwardStart ≤
      ((worker_trace backend reqs).take n).countP Ev.isForwardEnd + 1 := by
  induction reqs generalizing n with
  | nil => simp [worker_trace]
  | cons r rs ih =>
    match n with
    | 0 => simp
    | 1 =>
        simp [worker_trace, List.countP_cons, Ev.isForwardStart, Ev.isForwardEnd]
    | 2 =>
        simp [worker_trace, List.countP_cons, Ev.isForwardStart, Ev.isForwardEnd]
    | (m + 3) =>
        have h := ih m
        simp only [worker_trace, List.take_succ_cons, List.countP_cons,
          Ev.isForwardStart, Ev.isForwardEnd] at h ⊢
        simp at h ⊢
        omega

/-- C1: the broker worker serializes backend access: in every prefix of the
worker's event trace, the number of forward calls entered exceeds the
number completed by at most one — at most one queued request is in flight
against the backend at any instant, for every backend behaviour and every
eventual queue content. -/
theorem broker_single_flight {π ρ : Type}
    (backend : QueuedRequest π → BackendResponse ρ)
    (reqs : List (QueuedRequest π)) (n : Nat) :
    ((worker_trace backend reqs).take n).countP Ev.isForwardStart ≤
      ((worker_trace backend reqs).take n).countP Ev.isForwardEnd + 1 :=
  worker_trace_countP_bound backend reqs n

lemma fulfilledIds_worker_trace {π ρ : Type}
    (backend : QueuedRequest π → BackendResponse ρ)
    (reqs : List (QueuedRequest π)) :
    fulfilledIds (worker_trace backend reqs) =
      reqs.map QueuedRequest.request_id := by
  induction reqs with
  | nil => rfl
  | cons r rs ih => simp [worker_trace, fulfilledIds, ih]

lemma enqueueAll_queue {π : Type} (subs : List (String × π)) :
    ∀ st : BrokerState π,
      (enqueueAll st subs).queue = st.queue ++ acceptedRequests st subs := by
  induction subs with
  | nil => intro st; simp [enqueueAll, acceptedRequests]
  | cons s rest ih =>
    intro st
    obtain ⟨id, p⟩ := s
    by_cases h : MAX_QUEUE_SIZE ≤ st.queue.length
    · simp [enqueueAll, acceptedRequests, enqueue_request, h, ih]
    · simp [enqueueAll, acceptedRequests, enqueue_request, h, ih]

/-- C2: completion order is FIFO and equals enqueue order: running the
worker over the queue left by any sequence of enqueue calls fulfils the
callers' completion handles exactly in the order in which their requests
were accepted into the queue. -/
theorem broker_fifo_completion_order {π ρ : Type}
    (backend : QueuedRequest π → BackendResponse ρ)
    (subs : List (String × π)) :
    fulfilledIds (worker_trace backend (enqueueAll BrokerState.empty subs).queue) =
      (acceptedRequests BrokerState.empty subs).map QueuedRequest.request_id := by
  rw [fulfilledIds_worker_trace, enqueueAll_queue]
  simp [BrokerState.empty]

/-- C6: an enqueue call arriving while the queue holds `MAX_QUEUE_SIZE`
(100) or more requests is rejected immediately with HTTP 503 "Queue is
full" and the broker state — queue contents and counters — is untouched:
nothing is appended and nothing waits for the queue to drain. -/
theorem enqueue_queue_full_rejects {π : Type} (st : BrokerState π)
    (id : String) (p : π) (h : MAX_QUEUE_SIZE ≤ st.queue.length) :
    enqueue_request st id p =
      (st, Except.error ⟨503, "Queue is full, please retry later"⟩) := by
  simp [enqueue_request, h]

theorem enqueue_queue_full_rejects_witness :
    MAX_QUEUE_SIZE ≤ fullBroker.queue.length ∧
    enqueue_request fullBroker "deadbeef" 7 =
      (fullBroker, Except.error ⟨503, "Queue is full, please retry later"⟩) :=
  ⟨by decide, enqueue_queue_full_rejects fullBroker "deadbeef" 7 (by decide)⟩

lemma fulfilCount_not_mem {π ρ : Type}
    (backend : QueuedRequest π → BackendResponse ρ) (id : String) :
    ∀ reqs : List (QueuedRequest π),
      id ∉ reqs.map QueuedRequest.request_id →
      fulfilCount id (worker_trace backend reqs) = 0 := by
  intro reqs
  induction reqs with
  | nil => intro _; rfl
  | cons r rs ih =>
    intro h
    simp only [List.map_cons, List.mem_cons] at h
    push_neg at h
    have hne : (r.request_id == id) = false := by
      simp [beq_iff_eq]
      exact fun he => h.1 he.symm
    simp [worker_trace, fulfilCount, List.countP_cons, hne] at *
    exact ih h.2

/-- C9: every request accepted into the queue has its completion handle
fulfilled exactly once by the worker — there is exactly one fulfilment
event for its id in the worker trace, and that event carries the outcome
of its own forward call (the success and failure branches are mutually
exclusive by construction of `Except`). -/
theorem completion_handle_fulfilled_once {π ρ : Type}
    (backend : QueuedRequest π → BackendResponse ρ)
    (reqs : List (QueuedRequest π))
    (hnd : (reqs.map QueuedRequest.request_id).Nodup)
    (r : QueuedRequest π) (hr : r ∈ reqs) :
    fulfilCount r.request_id (worker_trace backend reqs) = 1 ∧
    Ev.fulfilled r.request_id (forward_to_omniparser (backend r)) ∈
      worker_trace backend reqs := by
  induction reqs with
  | nil => cases hr
  | cons a rs ih =>
    simp only [List.map_cons, List.nodup_cons] at hnd
    rcases List.mem_cons.mp hr with rfl | hr'
    · refine ⟨?_, by simp [worker_trace]⟩
      have h0 := fulfilCount_not_mem backend r.request_id rs hnd.1
      have hstep :
          fulfilCount r.request_id (worker_trace backend (r :: rs)) =
            fulfilCount r.request_id (worker_trace backend rs) + 1 := by
        simp [worker_trace, fulfilCount, List.countP_cons]
      rw [hstep, h0]
    · have hne : (a.request_id == r.request_id) = false := by
        simp only [beq_eq_false_iff_ne, ne_eq]
        intro he
        exact hnd.1 (he ▸ List.mem_map_of_mem QueuedRequest.request_id hr')
      obtain ⟨h1, h2⟩ := ih hnd.2 hr'
      constructor
      · have hstep :
            fulfilCount r.request_id (worker_trace backend (a :: rs)) =
              fulfilCount r.request_id (worker_trace backend rs) := by
          simp [worker_trace, fulfilCount, List.countP_cons, hne]
        rw [hstep]; exact h1
      · exact List.mem_cons_of_mem _ (List.mem_cons_of_mem _
          (List.mem_cons_of_mem _ h2))

theorem completion_handle_fulfilled_once_witness :
    (twoReqs.map QueuedRequest.request_id).Nodup ∧
    (⟨"aa", 0⟩ : QueuedRequest Nat) ∈ twoReqs ∧
    (fulfilCount "aa" (worker_trace echoBackend twoReqs) = 1 ∧
      Ev.fulfilled "aa" (forward_to_omniparser (echoBackend ⟨"aa", 0⟩)) ∈
        worker_trace echoBackend twoReqs) :=
  ⟨by decide, by decide,
   completion_handle_fulfilled_once echoBackend twoReqs (by decide)
     ⟨"aa", 0⟩ (by decide)⟩

end Gemma

namespace Gemma

/-- C10: session serialization round-trips: `from_dict (to_dict c)` yields
a controller with the same name, endpoint (ip, port), configuration path,
launch target (game path) and run policy (run count, inter-run delay); and
`to_dict` does not depend on any transient field (worker handle, stop
event, logger, status, progress counters), so those are not part of the
persisted record. -/
theorem session_serialization_roundtrip (c : SUTController) (b e lb : Bool)
    (s : Status) (cs ts cr tr : Nat) (lbl : String) :
    ((SUTController.from_dict (SUTController.to_dict c)).name = c.name
      ∧ (SUTController.from_dict (SUTController.to_dict c)).ip = c.ip
      ∧ (SUTController.from_dict (SUTController.to_dict c)).port = c.port
      ∧ (SUTController.from_dict (SUTController.to_dict c)).config_path
          = c.config_path
      ∧ (SUTController.from_dict (SUTController.to_dict c)).game_path
          = c.game_path
      ∧ (SUTController.from_dict (SUTController.to_dict c)).run_count
          = c.run_count
      ∧ (SUTController.from_dict (SUTController.to_dict c)).run_delay
          = c.run_delay)
    ∧ SUTController.to_dict
        { c with
            thread_alive := b
            stop_event := e
            logger_bound := lb
            status := s
            completed_steps := cs
            total_steps := ts
            current_step := lbl
            current_run := cr
            total_runs := tr }
        = SUTController.to_dict c :=
  ⟨⟨rfl, rfl, rfl, rfl, rfl, rfl, rfl⟩, rfl⟩

/-- C5 counterexample: the claim fails in both failure branches.  On a
controller whose worker is already active (logger bound),
`start_automation` returns false but does NOT set the status to `Error`
(it leaves the state untouched — here the status stays `Idle`); and on a
never-started controller with no bound configuration, the call does not
return false at all: `self.logger.error(...)` raises `AttributeError` on
the still-`None` logger before `self.status = "Error"` is ever
executed. -/
theorem start_automation_active_not_error_cex :
    cActive.thread_alive = true ∧
    start_automation cActive = Except.ok (cActive, false) ∧
    cActive.status ≠ Status.Error ∧
    cNoConfig.thread_alive = false ∧ cNoConfig.config_path = "" ∧
    start_automation cNoConfig =
      Except.error
        (PyError.attributeError "NoneType object has no attribute error") :=
  ⟨rfl, rfl, by decide, rfl, rfl, rfl⟩

/-- C5 (amended): `start_automation` returns true exactly when no worker
is active and a configuration is bound (the success path performs no
logger call, so it never raises).  With an active worker and a bound
logger it fails fast returning false with the state (status included)
unchanged; with no configuration and a bound logger it fails fast setting
status `Error`; in either failure branch with the logger still `None`
(any never-started controller) it instead raises `AttributeError` before
any state change.  On success it clears the stop event, resets
`completed_steps` and `current_run` to 0, sets `total_runs` to the
configured run count, sets status `Running`, marks the worker spawned and
returns true. -/
theorem start_automation_amended (c : SUTController) :
    ((∃ c', start_automation c = Except.ok (c', true)) ↔
      c.thread_alive = false ∧ c.config_path ≠ "")
    ∧ (c.thread_alive = true → c.logger_bound = true →
        start_automation c = Except.ok (c, false))
    ∧ (c.thread_alive = false → c.config_path = "" → c.logger_bound = true →
        start_automation c = Except.ok ({ c with status := .Error }, false))
    ∧ (c.logger_bound = false →
        (c.thread_alive = true ∨ c.config_path = "") →
        ∃ msg, start_automation c =
          Except.error (PyError.attributeError msg))
    ∧ (c.thread_alive = false → c.config_path ≠ "" →
        start_automation c =
          Except.ok
            ({ c with
                stop_event := false
                status := .Running
                completed_steps := 0
                current_run := 0
                total_runs := c.run_count
                thread_alive := true },
             true)) := by
  by_cases h1 : c.thread_alive <;> by_cases h2 : c.config_path = "" <;>
    by_cases h3 : c.logger_bound <;>
    simp [start_automation, h1, h2, h3]

theorem start_automation_amended_witness :
    start_automation cActive = Except.ok (cActive, false) ∧
    start_automation cStale =
      Except.ok ({ cStale with status := .Error }, false) ∧
    (∃ msg, start_automation cNoConfig =
      Except.error (PyError.attributeError msg)) ∧
    start_automation cReady =
      Except.ok
        ({ cReady with
            stop_event := false
            status := .Running
            completed_steps := 0
            current_run := 0
            total_runs := cReady.run_count
            thread_alive := true },
         true) :=
  ⟨(start_automation_amended cActive).2.1 rfl rfl,
   (start_automation_amended cStale).2.2.1 rfl rfl rfl,
   (start_automation_amended cNoConfig).2.2.2.1 rfl (Or.inr rfl),
   (start_automation_amended cReady).2.2.2.2 rfl (by decide)⟩

/-- C4 counterexample: session A attaching its capture sink removes
session B's sink from the shared root-logger handler list —
`setup_logger` removes ALL `QueueHandler`s, not only the caller's own
prior one, contradicting the claim that starting A never removes
another session's sink. -/
theorem setup_logger_removes_other_sink_cex :
    RootHandler.queueHandler "B" 0 ∈ rootTwo ∧
    RootHandler.queueHandler "B" 0 ∉ setup_logger_root "A" 1 rootTwo := by
  decide

/-- C4 (amended): attaching a session's sink removes every `QueueHandler`
from the shared channel — the caller's own prior one and any other
session's — before appending the caller's fresh sink, while leaving
non-queue handlers in place; the batch-end detach, by contrast, removes
exactly the caller's own sink, leaving every other handler (other
sessions' sinks included) intact. -/
theorem logging_sink_attach_detach (owner : String) (uid : Nat)
    (root : List RootHandler) (h : RootHandler) :
    (h ∈ setup_logger_root owner uid root → h.isQueue = true →
      h = RootHandler.queueHandler owner uid)
    ∧ (h ∈ root → h.isQueue = false → h ∈ setup_logger_root owner uid root)
    ∧ (h ∈ root → h ≠ RootHandler.queueHandler owner uid →
        h ∈ remove_own_sink owner uid root)
    ∧ (root.Nodup →
        RootHandler.queueHandler owner uid ∉ remove_own_sink owner uid root) := by
  refine ⟨?_, ?_, ?_, ?_⟩
  · intro hm hq
    rcases List.mem_append.mp hm with hm | hm
    · have hf := (List.mem_filter.mp hm).2
      rw [hq] at hf
      simp at hf
    · simpa using hm
  · intro hm hq
    exact List.mem_append.mpr (.inl (List.mem_filter.mpr ⟨hm, by simp [hq]⟩))
  · intro hm hne
    exact (List.mem_erase_of_ne hne).mpr hm
  · intro hnd hc
    exact ((List.Nodup.mem_erase_iff hnd).mp hc).1 rfl

theorem logging_sink_attach_detach_witness :
    RootHandler.queueHandler "B" 0 ∈ remove_own_sink "A" 1 rootTwo ∧
    RootHandler.queueHandler "A" 1 ∉ remove_own_sink "A" 1 rootTwo :=
  ⟨(logging_sink_attach_detach "A" 1 rootTwo
      (RootHandler.queueHandler "B" 0)).2.2.1 (by decide) (by decide),
   (logging_sink_attach_detach "A" 1 rootTwo
      (RootHandler.queueHandler "A" 1)).2.2.2 (by decide)⟩

end Gemma

namespace Gemma

lemma delayLoop_clean (env : BatchEnv) (n : Nat) :
    ∀ (r t : Nat), (∀ u, u < r → env.stopDelay n (t + u) = false) →
      delayLoop env n t r =
        ((List.range' t r).map fun u => BEvent.delayTick n u, false) := by
  intro r
  induction r with
  | zero => intro t _; rfl
  | succ r ih =>
    intro t h
    have h0 : env.stopDelay n t = false := by
      simpa using h 0 (Nat.succ_pos r)
    have h' : ∀ u, u < r → env.stopDelay n (t + 1 + u) = false := by
      intro u hu
      have hx := h (u + 1) (by omega)
      rw [show t + (u + 1) = t + 1 + u by omega] at hx
      exact hx
    simp [delayLoop, h0, ih (t + 1) h', List.range'_succ]

lemma delayLoop_stop (env : BatchEnv) (n : Nat) :
    ∀ (d r t : Nat), d < r →
      (∀ u, u < d → env.stopDelay n (t + u) = false) →
      env.stopDelay n (t + d) = true →
      delayLoop env n t r =
        (((List.range' t d).map fun u => BEvent.delayTick n u) ++
          [BEvent.setStatus .Stopped], true) := by
  intro d
  induction d with
  | zero =>
    intro r t hr _ hstop
    match r, hr with
    | r + 1, _ =>
      rw [show t + 0 = t by omega] at hstop
      simp [delayLoop, hstop]
  | succ d ih =>
    intro r t hr hclean hstop
    match r, hr with
    | r + 1, hr =>
      have h0 : env.stopDelay n t = false := by
        simpa using hclean 0 (by omega)
      have hclean' : ∀ u, u < d → env.stopDelay n (t + 1 + u) = false := by
        intro u hu
        have hx := hclean (u + 1) (by omega)
        rw [show t + (u + 1) = t + 1 + u by omega] at hx
        exact hx
      have hstop' : env.stopDelay n (t + 1 + d) = true := by
        rw [show t + 1 + d = t + (d + 1) by omega]
        exact hstop
      have hrec := ih r (t + 1) (by omega) hclean' hstop'
      simp [delayLoop, h0, hrec, List.range'_succ]

lemma delayLoop_tick_mem (env : BatchEnv) (n j u : Nat) :
    ∀ (r t : Nat), BEvent.delayTick j u ∈ (delayLoop env n t r).1 →
      j = n ∧ t ≤ u ∧ u < t + r := by
  intro r
  induction r with
  | zero => intro t h; simp [delayLoop] at h
  | succ r ih =>
    intro t h
    by_cases hs : env.stopDelay n t = true
    · simp [delayLoop, hs] at h
    · rw [Bool.not_eq_true] at hs
      simp only [delayLoop, hs, Bool.false_eq_true, if_false] at h
      rcases List.mem_cons.mp h with he | he
      · have := BEvent.delayTick.injEq j u n t ▸ he
        simp at this
        exact ⟨this.1, by omega, by omega⟩
      · obtain ⟨h1, h2, h3⟩ := ih (t + 1) he
        exact ⟨h1, by omega, by omega⟩

lemma delayLoop_props (env : BatchEnv) (n : Nat) :
    ∀ (r t : Nat),
      noRunStart (delayLoop env n t r).1 = true ∧
      stopsAfterTerminal (delayLoop env n t r).1 = true ∧
      ((delayLoop env n t r).2 = false →
        hasTerminal (delayLoop env n t r).1 = false) := by
  intro r
  induction r with
  | zero =>
    intro t
    exact ⟨rfl, rfl, fun _ => rfl⟩
  | succ r ih =>
    intro t
    by_cases hs : env.stopDelay n t = true
    · refine ⟨?_, ?_, ?_⟩ <;>
        simp [delayLoop, hs, noRunStart, stopsAfterTerminal, hasTerminal]
    · rw [Bool.not_eq_true] at hs
      obtain ⟨ih1, ih2, ih3⟩ := ih (t + 1)
      refine ⟨?_, ?_, ?_⟩
      · simpa [delayLoop, hs, noRunStart] using ih1
      · simpa [delayLoop, hs, stopsAfterTerminal] using ih2
      · intro hb
        simp only [delayLoop, hs, Bool.false_eq_true, if_false] at hb ⊢
        simpa [hasTerminal] using ih3 hb

lemma noRunStart_append (a b : List BEvent) :
    noRunStart (a ++ b) = (noRunStart a && noRunStart b) := by
  simp [noRunStart, List.all_append]

lemma hasTerminal_append (a b : List BEvent) :
    hasTerminal (a ++ b) = (hasTerminal a || hasTerminal b) := by
  simp [hasTerminal, List.any_append]

lemma noRunStart_append_iff (a b : List BEvent) :
    noRunStart (a ++ b) = true ↔
      noRunStart a = true ∧ noRunStart b = true := by
  simp [noRunStart_append]

lemma stopsAfterTerminal_append (a b : List BEvent) :
    stopsAfterTerminal (a ++ b) = true ↔
      stopsAfterTerminal a = true ∧ stopsAfterTerminal b = true ∧
        (hasTerminal a = true → noRunStart b = true) := by
  induction a with
  | nil => simp [stopsAfterTerminal, hasTerminal]
  | cons e a ih =>
    cases e with
    | runStart n => simpa [stopsAfterTerminal, hasTerminal] using ih
    | setCurrentRun n => simpa [stopsAfterTerminal, hasTerminal] using ih
    | delayTick n t => simpa [stopsAfterTerminal, hasTerminal] using ih
    | setStatus s =>
      cases s with
      | Failed =>
        simp only [List.cons_append, stopsAfterTerminal, hasTerminal,
          List.any_cons, Bool.and_eq_true, Bool.or_eq_true, ih,
          noRunStart_append_iff]
        simp [hasTerminal, noRunStart_append_iff]
        tauto
      | Stopped =>
        simp only [List.cons_append, stopsAfterTerminal, hasTerminal,
          List.any_cons, Bool.and_eq_true, Bool.or_eq_true, ih,
          noRunStart_append_iff]
        simp [hasTerminal, noRunStart_append_iff]
        tauto
      | Idle => simpa [stopsAfterTerminal, hasTerminal] using ih
      | Running => simpa [stopsAfterTerminal, hasTerminal] using ih
      | Completed => simpa [stopsAfterTerminal, hasTerminal] using ih
      | Error => simpa [stopsAfterTerminal, hasTerminal] using ih
      | NotConnected => simpa [stopsAfterTerminal, hasTerminal] using ih

end Gemma

namespace Gemma

lemma runBatchAux_zero (env : BatchEnv) (rc rd : Nat) (status : Status)
    (run_num : Nat) :
    runBatchAux env rc rd status run_num 0 =
      if status ≠ Status.Failed ∧ status ≠ Status.Stopped then
        [BEvent.setStatus .Completed]
      else [] := rfl

lemma runBatchAux_stopBefore (env : BatchEnv) (rc rd : Nat) (status : Status)
    (run_num fuel : Nat) (h : env.stopBefore run_num = true) :
    runBatchAux env rc rd status run_num (fuel + 1) =
      [BEvent.setStatus .Stopped] := by
  simp [runBatchAux, h]

lemma runBatchAux_stopAfter (env : BatchEnv) (rc rd : Nat) (status : Status)
    (run_num fuel : Nat) (h1 : env.stopBefore run_num = false)
    (h2 : env.stopAfter run_num = true) :
    runBatchAux env rc rd status run_num (fuel + 1) =
      [BEvent.setCurrentRun run_num, BEvent.runStart run_num,
       BEvent.setStatus (runStatus (env.runOut run_num)),
       BEvent.setStatus .Stopped] := by
  simp [runBatchAux, h1, h2]

lemma runBatchAux_failure (env : BatchEnv) (rc rd : Nat) (status : Status)
    (run_num fuel : Nat) (h1 : env.stopBefore run_num = false)
    (h2 : env.stopAfter run_num = false)
    (h3 : env.runOut run_num = RunOutcome.failure) :
    runBatchAux env rc rd status run_num (fuel + 1) =
      [BEvent.setCurrentRun run_num, BEvent.runStart run_num,
       BEvent.setStatus .Failed] := by
  simp [runBatchAux, h1, h2, h3, runStatus]

lemma runBatchAux_go_delay (env : BatchEnv) (rc rd : Nat) (status : Status)
    (run_num fuel : Nat) (h1 : env.stopBefore run_num = false)
    (h2 : env.stopAfter run_num = false)
    (h3 : runStatus (env.runOut run_num) ≠ Status.Failed)
    (h4 : run_num < rc) (h5 : 0 < rd) :
    runBatchAux env rc rd status run_num (fuel + 1) =
      if (delayLoop env run_num 0 rd).2 then
        [BEvent.setCurrentRun run_num, BEvent.runStart run_num,
         BEvent.setStatus (runStatus (env.runOut run_num))] ++
          (delayLoop env run_num 0 rd).1
      else
        [BEvent.setCurrentRun run_num, BEvent.runStart run_num,
         BEvent.setStatus (runStatus (env.runOut run_num))] ++
          (delayLoop env run_num 0 rd).1 ++
          runBatchAux env rc rd (runStatus (env.runOut run_num))
            (run_num + 1) fuel := by
  simp [runBatchAux, h1, h2, h3, h4, h5]

lemma runBatchAux_go_nodelay (env : BatchEnv) (rc rd : Nat) (status : Status)
    (run_num fuel : Nat) (h1 : env.stopBefore run_num = false)
    (h2 : env.stopAfter run_num = false)
    (h3 : runStatus (env.runOut run_num) ≠ Status.Failed)
    (h4 : ¬(run_num < rc ∧ 0 < rd)) :
    runBatchAux env rc rd status run_num (fuel + 1) =
      [BEvent.setCurrentRun run_num, BEvent.runStart run_num,
       BEvent.setStatus (runStatus (env.runOut run_num))] ++
        runBatchAux env rc rd (runStatus (env.runOut run_num))
          (run_num + 1) fuel := by
  simp [runBatchAux, h1, h2, h3, h4]

lemma runBatchAux_sAT (env : BatchEnv)
    (hcons : ∀ n, env.runOut n = RunOutcome.stoppedDuring →
      env.stopAfter n = true)
    (rc rd : Nat) :
    ∀ (fuel run_num : Nat) (status : Status),
      stopsAfterTerminal (runBatchAux env rc rd status run_num fuel) = true := by
  intro fuel
  induction fuel with
  | zero =>
    intro run_num status
    rw [runBatchAux_zero]
    by_cases h : status ≠ Status.Failed ∧ status ≠ Status.Stopped <;>
      simp [h, stopsAfterTerminal, noRunStart]
  | succ fuel ih =>
    intro run_num status
    by_cases hsb : env.stopBefore run_num = true
    · rw [runBatchAux_stopBefore env rc rd status run_num fuel hsb]
      simp [stopsAfterTerminal, noRunStart]
    · rw [Bool.not_eq_true] at hsb
      by_cases hsa : env.stopAfter run_num = true
      · rw [runBatchAux_stopAfter env rc rd status run_num fuel hsb hsa]
        cases hout : env.runOut run_num <;>
          simp [runStatus, stopsAfterTerminal, noRunStart]
      · rw [Bool.not_eq_true] at hsa
        cases hout : env.runOut run_num with
        | stoppedDuring =>
          rw [hcons run_num hout] at hsa
          cases hsa
        | failure =>
          rw [runBatchAux_failure env rc rd status run_num fuel hsb hsa hout]
          simp [stopsAfterTerminal, noRunStart]
        | success =>
          have h3 : runStatus (env.runOut run_num) ≠ Status.Failed := by
            rw [hout]; simp [runStatus]
          obtain ⟨hnr, hterm, hht⟩ := delayLoop_props env run_num rd 0
          by_cases hlt : run_num < rc ∧ 0 < rd
          · rw [runBatchAux_go_delay env rc rd status run_num fuel hsb hsa h3
              hlt.1 hlt.2]
            by_cases hp : (delayLoop env run_num 0 rd).2 = true
            · rw [if_pos hp]
              rw [show ([BEvent.setCurrentRun run_num, BEvent.runStart run_num,
                  BEvent.setStatus (runStatus (env.runOut run_num))] :
                    List BEvent) =
                  [BEvent.setCurrentRun run_num, BEvent.runStart run_num] ++
                  [BEvent.setStatus (runStatus (env.runOut run_num))] from rfl]
              rw [hout]
              rw [List.append_assoc, stopsAfterTerminal_append]
              refine ⟨by simp [stopsAfterTerminal], ?_, ?_⟩
              · rw [stopsAfterTerminal_append]
                exact ⟨by simp [runStatus, stopsAfterTerminal], hterm,
                  by simp [runStatus, hasTerminal]⟩
              · intro hcontra
                simp [hasTerminal] at hcontra
            · rw [if_neg hp, Bool.not_eq_true] at *
              rw [List.append_assoc, stopsAfterTerminal_append]
              refine ⟨by simp [hout, runStatus, stopsAfterTerminal, noRunStart],
                ?_, ?_⟩
              · rw [stopsAfterTerminal_append]
                exact ⟨hterm, ih (run_num + 1) (runStatus (env.runOut run_num)),
                  fun hx => absurd hx (by simp [hht hp])⟩
              · intro hcontra
                simp [hout, runStatus, hasTerminal] at hcontra
          · rw [runBatchAux_go_nodelay env rc rd status run_num fuel hsb hsa
              h3 hlt]
            rw [stopsAfterTerminal_append]
            refine ⟨by simp [hout, runStatus, stopsAfterTerminal, noRunStart],
              ih (run_num + 1) (runStatus (env.runOut run_num)), ?_⟩
            intro hcontra
            simp [hout, runStatus, hasTerminal] at hcontra

/-- C3 counterexample: with two configured runs that both succeed and no
cancellation, the worker assigns the terminal status `Completed` after run
1 and then still executes run 2 and reassigns the status — so the claim
that once ANY terminal status (Completed included) is assigned no further
runs execute and the status is not changed again is false on the code. -/
theorem batch_completed_then_more_runs_cex :
    runBatch envAllSuccess 2 0 =
      [BEvent.setCurrentRun 1, BEvent.runStart 1,
       BEvent.setStatus .Completed, BEvent.setCurrentRun 2,
       BEvent.runStart 2, BEvent.setStatus .Completed,
       BEvent.setStatus .Completed] ∧
    stopsAfterAnyTerminal (runBatch envAllSuccess 2 0) = false := by
  exact ⟨by decide, by decide⟩

/-- C3 (amended): within one batch, the statuses `Failed` and `Stopped`
are batch-terminal — once either is assigned, no further run of that
batch executes; `Completed`, by contrast, is assigned after every
successful run and may be superseded by later runs.  The consistency
hypothesis records that a run that observed the stop signal mid-run
(`stoppedDuring`) implies the stop event also reads set at the loop's
post-run checkpoint. -/
theorem batch_terminal_short_circuit (env : BatchEnv)
    (hcons : ∀ n, env.runOut n = RunOutcome.stoppedDuring →
      env.stopAfter n = true)
    (rc rd : Nat) :
    stopsAfterTerminal (runBatch env rc rd) = true :=
  runBatchAux_sAT env hcons rc rd rc 1 Status.Running

theorem batch_terminal_short_circuit_witness :
    stopsAfterTerminal (runBatch envFailAt2 5 0) = true :=
  batch_terminal_short_circuit envFailAt2
    (fun n h => absurd h (by by_cases h2 : n = 2 <;> simp [envFailAt2, h2]))
    5 0

end Gemma

namespace Gemma

lemma runBatchAux_success_step (env : BatchEnv) (rc rd : Nat) (status : Status)
    (run_num fuel : Nat) (h1 : env.stopBefore run_num = false)
    (h2 : env.runOut run_num = RunOutcome.success)
    (h3 : env.stopAfter run_num = false)
    (h4 : ∀ t, t < rd → env.stopDelay run_num t = false)
    (h5 : run_num < rc) :
    runBatchAux env rc rd status run_num (fuel + 1) =
      successBlock rd run_num ++
        runBatchAux env rc rd Status.Completed (run_num + 1) fuel := by
  have h3' : runStatus (env.runOut run_num) ≠ Status.Failed := by
    simp [h2, runStatus]
  by_cases hrd : 0 < rd
  · rw [runBatchAux_go_delay env rc rd status run_num fuel h1 h3 h3' h5 hrd]
    have hcl := delayLoop_clean env run_num rd 0
      (fun u hu => by rw [Nat.zero_add]; exact h4 u hu)
    rw [hcl]
    simp [successBlock, h2, runStatus, List.append_assoc]
  · have hrd0 : rd = 0 := by omega
    rw [runBatchAux_go_nodelay env rc rd status run_num fuel h1 h3 h3'
      (by omega)]
    simp [successBlock, hrd0, h2, runStatus]

lemma successBlocks_succ (rd run_num i : Nat) :
    successBlocks rd run_num (i + 1) =
      successBlock rd run_num ++ successBlocks rd (run_num + 1) i := by
  simp [successBlocks, List.range'_succ]

lemma runBatchAux_success_blocks (env : BatchEnv) (rc rd : Nat) :
    ∀ (i run_num fuel : Nat) (status : Status),
      run_num + i ≤ rc →
      i ≤ fuel →
      (∀ j, run_num ≤ j → j < run_num + i →
        env.stopBefore j = false ∧ env.runOut j = RunOutcome.success ∧
        env.stopAfter j = false ∧ ∀ t, t < rd → env.stopDelay j t = false) →
      ∃ s' : Status,
        runBatchAux env rc rd status run_num fuel =
          successBlocks rd run_num i ++
            runBatchAux env rc rd s' (run_num + i) (fuel - i) := by
  intro i
  induction i with
  | zero =>
    intro run_num fuel status _ _ _
    exact ⟨status, by simp [successBlocks]⟩
  | succ i ih =>
    intro run_num fuel status hbound hfuel hclean
    obtain ⟨c1, c2, c3, c4⟩ := hclean run_num (le_refl _) (by omega)
    match fuel, hfuel with
    | fuel + 1, _ =>
      rw [runBatchAux_success_step env rc rd status run_num fuel c1 c2 c3 c4
        (by omega)]
      obtain ⟨s', hs'⟩ := ih (run_num + 1) fuel Status.Completed (by omega)
        (by omega) (fun j hj1 hj2 => hclean j (by omega) (by omega))
      rw [hs']
      refine ⟨s', ?_⟩
      rw [show run_num + (i + 1) = run_num + 1 + i by omega,
          show fuel + 1 - (i + 1) = fuel - i by omega,
          successBlocks_succ, List.append_assoc]

lemma successBlock_mem_runStart (rd j m : Nat) :
    BEvent.runStart m ∈ successBlock rd j ↔ m = j := by
  simp [successBlock]

lemma successBlock_mem_setCurrentRun (rd j m : Nat) :
    BEvent.setCurrentRun m ∈ successBlock rd j ↔ m = j := by
  simp [successBlock]

lemma successBlocks_mem_runStart (rd run_num i m : Nat) :
    BEvent.runStart m ∈ successBlocks rd run_num i ↔
      run_num ≤ m ∧ m < run_num + i := by
  simp only [successBlocks, List.mem_flatten, List.mem_map]
  constructor
  · rintro ⟨l, ⟨j, hj, rfl⟩, hm⟩
    rw [successBlock_mem_runStart] at hm
    subst hm
    simpa [List.mem_range'_1] using hj
  · rintro ⟨h1, h2⟩
    exact ⟨successBlock rd m, ⟨m, by simp [List.mem_range'_1]; omega, rfl⟩,
      (successBlock_mem_runStart rd m m).mpr rfl⟩

lemma successBlocks_mem_setCurrentRun (rd run_num i m : Nat) :
    BEvent.setCurrentRun m ∈ successBlocks rd run_num i ↔
      run_num ≤ m ∧ m < run_num + i := by
  simp only [successBlocks, List.mem_flatten, List.mem_map]
  constructor
  · rintro ⟨l, ⟨j, hj, rfl⟩, hm⟩
    rw [successBlock_mem_setCurrentRun] at hm
    subst hm
    simpa [List.mem_range'_1] using hj
  · rintro ⟨h1, h2⟩
    exact ⟨successBlock rd m, ⟨m, by simp [List.mem_range'_1]; omega, rfl⟩,
      (successBlock_mem_setCurrentRun rd m m).mpr rfl⟩

lemma successBlocks_mem_tick (rd run_num i j u : Nat) :
    BEvent.delayTick j u ∈ successBlocks rd run_num i →
      run_num ≤ j ∧ j < run_num + i ∧ u < rd := by
  simp only [successBlocks, List.mem_flatten, List.mem_map]
  rintro ⟨l, ⟨j', hj', rfl⟩, hm⟩
  simp only [successBlock, List.mem_append, List.mem_cons, List.mem_map,
    List.mem_range'_1] at hm
  rcases hm with (h | h | h | h) | ⟨u', hu', he⟩
  · cases h
  · cases h
  · cases h
  · cases h
  · have hj : j = j' ∧ u = u' := by
      have := BEvent.delayTick.injEq j' u' j u ▸ he
      simp at this
      exact ⟨this.1.symm, this.2.symm⟩
    obtain ⟨rfl, rfl⟩ := hj
    simp only [List.mem_range'_1] at hj'
    omega

lemma finalStatus_append (s : Status) (a b : List BEvent) :
    finalStatus s (a ++ b) = finalStatus (finalStatus s a) b :=
  List.foldl_append _ _ _ _

lemma finalStatus_ticks (s : Status) (n : Nat) :
    ∀ (d a : Nat),
      finalStatus s ((List.range' a d).map fun u => BEvent.delayTick n u) = s := by
  intro d
  induction d with
  | zero => intro a; rfl
  | succ d ih =>
    intro a
    rw [List.range'_succ]
    simpa [finalStatus] using ih (a + 1)

lemma tickCount_ticks (n : Nat) (d a : Nat) :
    tickCount n ((List.range' a d).map fun u => BEvent.delayTick n u) = d := by
  rw [tickCount, List.countP_map]
  have hall : ∀ x ∈ List.range' a d,
      (((fun e => match e with
          | BEvent.delayTick j _ => j == n
          | _ => false) ∘ fun u => BEvent.delayTick n u) x) = true := by
    intro x _
    simp [Function.comp]
  rw [List.countP_eq_length.mpr hall, List.length_range']

lemma runBatchAux_tick_bounds (env : BatchEnv) (rc rd : Nat) :
    ∀ (fuel run_num : Nat) (status : Status) (j u : Nat),
      BEvent.delayTick j u ∈ runBatchAux env rc rd status run_num fuel →
      j < rc ∧ u < rd := by
  intro fuel
  induction fuel with
  | zero =>
    intro run_num status j u h
    rw [runBatchAux_zero] at h
    by_cases hs : status ≠ Status.Failed ∧ status ≠ Status.Stopped
    · rw [if_pos hs] at h; simp at h
    · rw [if_neg hs] at h; simp at h
  | succ fuel ih =>
    intro run_num status j u h
    by_cases hsb : env.stopBefore run_num = true
    · rw [runBatchAux_stopBefore env rc rd status run_num fuel hsb] at h
      simp at h
    · rw [Bool.not_eq_true] at hsb
      by_cases hsa : env.stopAfter run_num = true
      · rw [runBatchAux_stopAfter env rc rd status run_num fuel hsb hsa] at h
        simp at h
      · rw [Bool.not_eq_true] at hsa
        by_cases hfail : runStatus (env.runOut run_num) = Status.Failed
        · have hf : env.runOut run_num = RunOutcome.failure := by
            cases hq : env.runOut run_num
            · rw [hq] at hfail; simp [runStatus] at hfail
            · rw [hq] at hfail; simp [runStatus] at hfail
            · rfl
          rw [runBatchAux_failure env rc rd status run_num fuel hsb hsa hf] at h
          simp at h
        · by_cases hlt : run_num < rc ∧ 0 < rd
          · rw [runBatchAux_go_delay env rc rd status run_num fuel hsb hsa
              hfail hlt.1 hlt.2] at h
            by_cases hp : (delayLoop env run_num 0 rd).2 = true
            · rw [if_pos hp] at h
              rcases List.mem_append.mp h with h | h
              · simp at h
              · obtain ⟨h1, h2, h3⟩ :=
                  delayLoop_tick_mem env run_num j u rd 0 h
                omega
            · rw [if_neg hp] at h
              rcases List.mem_append.mp h with h | h
              · rcases List.mem_append.mp h with h | h
                · simp at h
                · obtain ⟨h1, h2, h3⟩ :=
                    delayLoop_tick_mem env run_num j u rd 0 h
                  omega
              · exact ih (run_num + 1) _ j u h
          · rw [runBatchAux_go_nodelay env rc rd status run_num fuel hsb hsa
              hfail hlt] at h
            rcases List.mem_append.mp h with h | h
            · simp at h
            · exact ih (run_num + 1) _ j u h

end Gemma

namespace Gemma

lemma runBatchAux_stopdelay_step (env : BatchEnv) (rc rd : Nat)
    (status : Status) (run_num fuel d : Nat)
    (h1 : env.stopBefore run_num = false)
    (h2 : env.runOut run_num = RunOutcome.success)
    (h3 : env.stopAfter run_num = false)
    (h4 : run_num < rc) (h5 : 0 < rd) (hd : d < rd)
    (hfirst : ∀ u, u < d → env.stopDelay run_num u = false)
    (hstop : env.stopDelay run_num d = true) :
    runBatchAux env rc rd status run_num (fuel + 1) =
      [BEvent.setCurrentRun run_num, BEvent.runStart run_num,
       BEvent.setStatus .Completed] ++
        ((List.range' 0 d).map fun u => BEvent.delayTick run_num u) ++
        [BEvent.setStatus .Stopped] := by
  have h3' : runStatus (env.runOut run_num) ≠ Status.Failed := by
    simp [h2, runStatus]
  rw [runBatchAux_go_delay env rc rd status run_num fuel h1 h3 h3' h4 h5]
  have hdl := delayLoop_stop env run_num d rd 0 hd
    (fun u hu => by rw [Nat.zero_add]; exact hfirst u hu)
    (by rw [Nat.zero_add]; exact hstop)
  rw [hdl]
  simp [h2, runStatus, List.append_assoc]

lemma tickCount_append (n : Nat) (a b : List BEvent) :
    tickCount n (a ++ b) = tickCount n a + tickCount n b := by
  simp [tickCount, List.countP_append]

/-- C7: if runs 1..k-1 of the batch all succeed with no cancellation and
run k's outcome is not success, the batch dispatches exactly runs 1..k —
no run past k ever starts (so no run directory is created for it),
`current_run` is never set past k — and the batch ends with status
`Failed` (or `Stopped` when the stop event was observed at the post-run
checkpoint, as is the case whenever the run's own outcome was
`stoppedDuring`). -/
theorem batch_fail_short_circuit (env : BatchEnv) (rc rd k : Nat)
    (hk1 : 1 ≤ k) (hk2 : k ≤ rc)
    (hsb : ∀ j, j ≤ k → env.stopBefore j = false)
    (hout : ∀ j, j < k → env.runOut j = RunOutcome.success)
    (hsa : ∀ j, j < k → env.stopAfter j = false)
    (hsd : ∀ j, j < k → ∀ t, t < rd → env.stopDelay j t = false)
    (hns : env.runOut k ≠ RunOutcome.success)
    (hcons : env.runOut k = RunOutcome.stoppedDuring →
      env.stopAfter k = true) :
    (∀ m, BEvent.runStart m ∈ runBatch env rc rd ↔ 1 ≤ m ∧ m ≤ k)
    ∧ (∀ m, BEvent.setCurrentRun m ∈ runBatch env rc rd ↔ 1 ≤ m ∧ m ≤ k)
    ∧ finalStatus Status.Running (runBatch env rc rd) =
        (if env.stopAfter k = true then Status.Stopped else Status.Failed) := by
  obtain ⟨s', heq⟩ := runBatchAux_success_blocks env rc rd (k - 1) 1 rc
    Status.Running (by omega) (by omega)
    (fun j hj1 hj2 => ⟨hsb j (by omega), hout j (by omega), hsa j (by omega),
      hsd j (by omega)⟩)
  rw [show (1 : Nat) + (k - 1) = k by omega,
      show rc - (k - 1) = (rc - k) + 1 by omega] at heq
  by_cases hafter : env.stopAfter k = true
  · rw [runBatchAux_stopAfter env rc rd s' k (rc - k) (hsb k (le_refl k))
      hafter] at heq
    rw [runBatch] at *
    refine ⟨?_, ?_, ?_⟩
    · intro m
      rw [heq, List.mem_append, successBlocks_mem_runStart]
      simp only [List.mem_cons, List.not_mem_nil, or_false]
      constructor
      · rintro (⟨h1, h2⟩ | hm)
        · omega
        · rcases hm with h | h | h | h
          · cases h
          · injection h with h; omega
          · cases h
          · cases h
      · rintro ⟨h1, h2⟩
        by_cases hmk : m = k
        · subst hmk; right; right; left; rfl
        · left; omega
    · intro m
      rw [heq, List.mem_append, successBlocks_mem_setCurrentRun]
      simp only [List.mem_cons, List.not_mem_nil, or_false]
      constructor
      · rintro (⟨h1, h2⟩ | hm)
        · omega
        · rcases hm with h | h | h | h
          · injection h with h; omega
          · cases h
          · cases h
          · cases h
      · rintro ⟨h1, h2⟩
        by_cases hmk : m = k
        · subst hmk; right; left; rfl
        · left; omega
    · rw [heq, finalStatus_append, if_pos hafter]
      rfl
  · have hafter' : env.stopAfter k = false := by
      rw [← Bool.not_eq_true]; exact hafter
    have hfl : env.runOut k = RunOutcome.failure := by
      cases hq : env.runOut k
      · exact absurd hq hns
      · rw [hcons hq] at hafter'; cases hafter'
      · rfl
    rw [runBatchAux_failure env rc rd s' k (rc - k) (hsb k (le_refl k))
      hafter' hfl] at heq
    rw [runBatch] at *
    refine ⟨?_, ?_, ?_⟩
    · intro m
      rw [heq, List.mem_append, successBlocks_mem_runStart]
      simp only [List.mem_cons, List.not_mem_nil, or_false]
      constructor
      · rintro (⟨h1, h2⟩ | hm)
        · omega
        · rcases hm with h | h | h
          · cases h
          · injection h with h; omega
          · cases h
      · rintro ⟨h1, h2⟩
        by_cases hmk : m = k
        · subst hmk; right; right; left; rfl
        · left; omega
    · intro m
      rw [heq, List.mem_append, successBlocks_mem_setCurrentRun]
      simp only [List.mem_cons, List.not_mem_nil, or_false]
      constructor
      · rintro (⟨h1, h2⟩ | hm)
        · omega
        · rcases hm with h | h | h
          · injection h with h; omega
          · cases h
          · cases h
      · rintro ⟨h1, h2⟩
        by_cases hmk : m = k
        · subst hmk; right; left; rfl
        · left; omega
    · rw [heq, finalStatus_append, if_neg hafter]
      rfl

theorem batch_fail_short_circuit_witness :
    (∀ m, BEvent.runStart m ∈ runBatch envFailAt2 5 0 ↔ 1 ≤ m ∧ m ≤ 2)
    ∧ (∀ m, BEvent.setCurrentRun m ∈ runBatch envFailAt2 5 0 ↔
        1 ≤ m ∧ m ≤ 2)
    ∧ finalStatus Status.Running (runBatch envFailAt2 5 0) =
        (if envFailAt2.stopAfter 2 = true then Status.Stopped
         else Status.Failed) :=
  batch_fail_short_circuit envFailAt2 5 0 2 (by decide) (by decide)
    (fun j _ => rfl)
    (fun j hj => by
      have hne : j ≠ 2 := by omega
      simp [envFailAt2, hne])
    (fun j _ => rfl)
    (fun j _ t _ => rfl)
    (by decide)
    (by decide)

end Gemma

namespace Gemma

/-- C8: with runs 1..n succeeding cleanly, n not the last run, and the
stop event first observed at tick d of the inter-run delay after run n
(d < interIterationDelaySeconds): the delay is implemented as one-second
cancellation-checked waits — exactly d one-second ticks are slept, the
tick at which the stop is observed is not slept (status becomes `Stopped`
within one tick of the stop being raised), the batch ends with status
`Stopped`, no run past n starts, `current_run` never advances past n, and
in any batch delay ticks occur only after a non-final run and only for
tick indices below the configured delay. -/
theorem batch_stop_during_delay (env : BatchEnv) (rc rd n d : Nat)
    (hn1 : 1 ≤ n) (hn2 : n < rc) (hrd : 0 < rd)
    (hsb : ∀ j, j ≤ n → env.stopBefore j = false)
    (hout : ∀ j, j ≤ n → env.runOut j = RunOutcome.success)
    (hsa : ∀ j, j ≤ n → env.stopAfter j = false)
    (hsd : ∀ j, j < n → ∀ t, t < rd → env.stopDelay j t = false)
    (hd : d < rd)
    (hfirst : ∀ u, u < d → env.stopDelay n u = false)
    (hstop : env.stopDelay n d = true) :
    (∀ m, BEvent.runStart m ∈ runBatch env rc rd ↔ 1 ≤ m ∧ m ≤ n)
    ∧ (∀ m, BEvent.setCurrentRun m ∈ runBatch env rc rd ↔ 1 ≤ m ∧ m ≤ n)
    ∧ finalStatus Status.Running (runBatch env rc rd) = Status.Stopped
    ∧ tickCount n (runBatch env rc rd) = d
    ∧ (∀ j u, BEvent.delayTick j u ∈ runBatch env rc rd →
        j < rc ∧ u < rd) := by
  obtain ⟨s', heq⟩ := runBatchAux_success_blocks env rc rd (n - 1) 1 rc
    Status.Running (by omega) (by omega)
    (fun j hj1 hj2 => ⟨hsb j (by omega), hout j (by omega), hsa j (by omega),
      hsd j (by omega)⟩)
  rw [show (1 : Nat) + (n - 1) = n by omega,
      show rc - (n - 1) = (rc - n) + 1 by omega] at heq
  rw [runBatchAux_stopdelay_step env rc rd s' n (rc - n) d
    (hsb n (le_refl n)) (hout n (le_refl n)) (hsa n (le_refl n))
    hn2 hrd hd hfirst hstop] at heq
  rw [runBatch] at *
  have hP0 : tickCount n (successBlocks rd 1 (n - 1)) = 0 := by
    rw [tickCount, List.countP_eq_zero]
    intro a ha hpa
    cases a with
    | delayTick j u =>
      simp at hpa
      have := successBlocks_mem_tick rd 1 (n - 1) j u ha
      omega
    | runStart m => simp at hpa
    | setStatus s => simp at hpa
    | setCurrentRun m => simp at hpa
  refine ⟨?_, ?_, ?_, ?_, ?_⟩
  · intro m
    rw [heq]
    simp [List.mem_append, successBlocks_mem_runStart, List.mem_range'_1]
    omega
  · intro m
    rw [heq]
    simp [List.mem_append, successBlocks_mem_setCurrentRun,
      List.mem_range'_1]
    omega
  · rw [heq, finalStatus_append, finalStatus_append]
    rfl
  · rw [heq, tickCount_append, tickCount_append, tickCount_append, hP0,
      tickCount_ticks]
    simp [tickCount]
  · intro j u h
    exact runBatchAux_tick_bounds env rc rd rc 1 Status.Running j u h

theorem batch_stop_during_delay_witness :
    (∀ m, BEvent.runStart m ∈ runBatch envStopInDelay 3 2 ↔ 1 ≤ m ∧ m ≤ 1)
    ∧ (∀ m, BEvent.setCurrentRun m ∈ runBatch envStopInDelay 3 2 ↔
        1 ≤ m ∧ m ≤ 1)
    ∧ finalStatus Status.Running (runBatch envStopInDelay 3 2) = Status.Stopped
    ∧ tickCount 1 (runBatch envStopInDelay 3 2) = 1
    ∧ (∀ j u, BEvent.delayTick j u ∈ runBatch envStopInDelay 3 2 →
        j < 3 ∧ u < 2) :=
  batch_stop_during_delay envStopInDelay 3 2 1 1 (by decide) (by decide)
    (by decide)
    (fun j _ => rfl)
    (fun j _ => rfl)
    (fun j _ => rfl)
    (fun j hj t ht => by
      have hne : j ≠ 1 := by omega
      simp [envStopInDelay, hne])
    (by decide)
    (fun u hu => by
      have hu0 : u = 0 := by omega
      subst hu0
      simp [envStopInDelay])
    (by decide)

end Gemma
